import Mathlib

/-!
Verification of the Brownian-motion martingale demonstration (`source.py`).

The numeric core consists of four functions:
* `simulate_brownian_motion` (lines 4-30): builds a time grid with
  `np.linspace(0, T, N_steps + 1)` and a path ensemble whose first column is
  zero and whose remaining columns are the per-row cumulative sums of an
  increment batch `dW` of shape `(N_paths, N_steps)`;
* `generate_squared_brownian_motion_martingale` (lines 80-92):
  `Wt_paths**2 - time_points`;
* `generate_exponential_martingale` (lines 99-112):
  `np.exp(theta * Wt_paths - 0.5 * theta**2 * time_points)`;
* `verify_martingale_property` (lines 49-76): plots paths together with
  `np.mean(process_paths, axis=0)` and returns `None`.

Floating-point arrays are modelled as lists over an exact field (`ℚ`, or `ℝ`
when the exponential function is involved); the Gaussian draws are
externalised as an explicit increment batch argument.
-/

namespace BrownianDemo

/-- `np.cumsum` along one row: `cumsum [x0, x1, x2] = [x0, x0+x1, x0+x1+x2]`. -/
def cumsum {α : Type} [AddCommMonoid α] : List α → List α
  | [] => []
  | x :: xs => x :: (cumsum xs).map (fun y => x + y)

/-- `np.linspace 0 T (N_steps + 1)` (source.py line 19): `N_steps + 1` points,
point `i` at `i * (T / N_steps)`. -/
def linspace (T : ℚ) (N_steps : ℕ) : List ℚ :=
  (List.range (N_steps + 1)).map (fun i : ℕ => (i : ℚ) * (T / (N_steps : ℚ)))

/-- `simulate_brownian_motion` (source.py lines 4-30).  The Gaussian increment
batch `dW` (drawn in the code with `np.random.normal` at scale `sqrt dt`, of
shape `(N_paths, N_steps)`) is passed in explicitly.  The body performs no
parameter validation; the only failure is the Python `ZeroDivisionError`
raised by `dt = T / N_steps` when `N_steps = 0`, modelled by the error
branch.  Lines 27-28 allocate `np.zeros((N_paths, N_steps + 1))` and assign
`np.cumsum(dW, axis=1)` into columns `1..`, so each returned row is `0`
followed by the cumulative sums of its increment row. -/
def simulate_brownian_motion (T : ℚ) (N_steps N_paths : ℕ) (dW : List (List ℚ)) :
    Except String (List ℚ × List (List ℚ)) :=
  if N_steps = 0 then
    Except.error "ZeroDivisionError: division by zero"
  else
    Except.ok (linspace T N_steps, dW.map (fun row => 0 :: cumsum row))

/-- `generate_squared_brownian_motion_martingale` (source.py lines 80-92):
`Wt_paths**2 - time_points`, the time grid broadcast across rows, element
`(p, k)` being `Wt_paths[p][k]^2 - time_points[k]`. -/
def generate_squared_brownian_motion_martingale {α : Type} [CommRing α]
    (Wt_paths : List (List α)) (time_points : List α) : List (List α) :=
  Wt_paths.map (fun row => List.zipWith (fun w t => w ^ 2 - t) row time_points)

/-- `generate_exponential_martingale` (source.py lines 99-112):
`np.exp(theta * Wt_paths - 0.5 * theta**2 * time_points)`, the time grid
broadcast across rows.  `expF` abstracts `np.exp`; the theorems instantiate
it with `Real.exp`. -/
def generate_exponential_martingale {α : Type} [Field α] (expF : α → α)
    (Wt_paths : List (List α)) (time_points : List α) (theta : α) : List (List α) :=
  Wt_paths.map (fun row =>
    List.zipWith (fun w t => expF (theta * w - 1 / 2 * theta ^ 2 * t)) row time_points)

/-- `np.mean(process_paths, axis=0)` (source.py line 67): the column-wise
arithmetic mean across all rows. -/
def np_mean_axis0 {α : Type} [Field α] (process_paths : List (List α)) : List α :=
  (List.range (process_paths.headD []).length).map
    (fun k => (process_paths.map (fun row => row.getD k 0)).sum / (process_paths.length : α))

/-- `verify_martingale_property` (source.py lines 49-76).  The plotting calls
are effect-free on the arrays and are omitted; line 67 computes the local
`average_path = np.mean(process_paths, axis=0)`, which is only plotted.  The
Python function has no `return` statement, so it returns `None`, modelled as
`none`. -/
def verify_martingale_property (time_points : List ℚ) (process_paths : List (List ℚ))
    (process_name : String) : Option (List ℚ) :=
  let average_path := np_mean_axis0 process_paths
  none

/-! ### Auxiliary lemmas about `cumsum` and `linspace` -/

theorem cumsum_length {α : Type} [AddCommMonoid α] (xs : List α) :
    (cumsum xs).length = xs.length := by
  induction xs with
  | nil => rfl
  | cons x xs ih => simp [cumsum, ih]

theorem cumsum_getD {α : Type} [AddCommMonoid α] (xs : List α) (i : ℕ)
    (h : i < xs.length) : (cumsum xs).getD i 0 = (xs.take (i + 1)).sum := by
  induction xs generalizing i with
  | nil => simp at h
  | cons x xs ih =>
    cases i with
    | zero => simp [cumsum]
    | succ i =>
      have hi : i < xs.length := by simpa using h
      have hlen : i < ((cumsum xs).map (fun y => x + y)).length := by
        simpa [cumsum_length] using hi
      have hlen' : i < (cumsum xs).length := by simpa [cumsum_length] using hi
      calc (cumsum (x :: xs)).getD (i + 1) 0
          = ((cumsum xs).map (fun y => x + y)).getD i 0 := by
            simp [cumsum]
        _ = x + (cumsum xs).getD i 0 := by
            rw [List.getD_eq_getElem _ _ hlen, List.getElem_map,
              List.getD_eq_getElem _ _ hlen']
        _ = x + (xs.take (i + 1)).sum := by rw [ih i hi]
        _ = ((x :: xs).take (i + 1 + 1)).sum := by simp

theorem linspace_length (T : ℚ) (N_steps : ℕ) :
    (linspace T N_steps).length = N_steps + 1 := by
  rw [linspace, List.length_map, List.length_range]

theorem linspace_getD (T : ℚ) (N_steps : ℕ) (i : ℕ) (h : i ≤ N_steps) :
    (linspace T N_steps).getD i 0 = (i : ℚ) * (T / (N_steps : ℚ)) := by
  have hi : i < (linspace T N_steps).length := by
    rw [linspace_length]; omega
  rw [linspace] at hi ⊢
  rw [List.getD_eq_getElem _ _ hi, List.getElem_map, List.getElem_range]

/-- When `N_steps ≠ 0` the simulator takes the non-error branch. -/
theorem simulate_ok (T : ℚ) (N_steps N_paths : ℕ) (dW : List (List ℚ))
    (hN : 1 ≤ N_steps) :
    simulate_brownian_motion T N_steps N_paths dW =
      Except.ok (linspace T N_steps, dW.map (fun row => 0 :: cumsum row)) := by
  simp [simulate_brownian_motion, Nat.one_le_iff_ne_zero.mp hN]

/-- Concrete evaluation of the simulator at `T = 1`, `N_steps = 2`,
`N_paths = 1`, `dW = [[3, 5]]`, shared by the witnesses below. -/
theorem simulate_eval_example :
    simulate_brownian_motion 1 2 1 [[3, 5]] =
      Except.ok ([0, 1/2, 1], [[0, 3, 8]]) := by
  rw [simulate_ok 1 2 1 [[3, 5]] (by norm_num)]
  norm_num [linspace, List.range_succ, cumsum]

/-! ### C1: columns of the path ensemble are prefix sums of the increments -/

/-- C1.  For `T > 0`, `N_steps ≥ 1`, `N_paths ≥ 1` and an increment batch
`dW` of shape `(N_paths, N_steps)`, the path ensemble returned by the
simulator has, for every path `p` and every column `k ≥ 1`, entry `(p, k)`
equal to the sum of the first `k` increments of path `p`. -/
theorem simulate_prefix_sum_columns (T : ℚ) (N_steps N_paths : ℕ)
    (dW : List (List ℚ)) (tg : List ℚ) (paths : List (List ℚ))
    (hT : 0 < T) (hN : 1 ≤ N_steps) (hP : 1 ≤ N_paths)
    (hlen : dW.length = N_paths) (hrows : ∀ row ∈ dW, row.length = N_steps)
    (hsim : simulate_brownian_motion T N_steps N_paths dW = Except.ok (tg, paths))
    (p k : ℕ) (hp : p < N_paths) (hk1 : 1 ≤ k) (hk2 : k ≤ N_steps) :
    (paths.getD p []).getD k 0 = ((dW.getD p []).take k).sum := by
  rw [simulate_ok T N_steps N_paths dW hN] at hsim
  obtain ⟨rfl, rfl⟩ : linspace T N_steps = tg ∧
      dW.map (fun row => 0 :: cumsum row) = paths := by
    constructor <;> [exact congrArg Prod.fst (Except.ok.inj hsim);
      exact congrArg Prod.snd (Except.ok.inj hsim)]
  have hpd : p < dW.length := by omega
  have hmap : p < (dW.map (fun row => 0 :: cumsum row)).length := by simpa using hpd
  have hrow : ((dW.map (fun row => 0 :: cumsum row)).getD p []) =
      0 :: cumsum (dW.getD p []) := by
    rw [List.getD_eq_getElem _ _ hmap, List.getElem_map, List.getD_eq_getElem _ _ hpd]
  rw [hrow]
  obtain ⟨j, rfl⟩ : ∃ j, k = j + 1 := ⟨k - 1, by omega⟩
  have hmem : dW.getD p [] ∈ dW := by
    rw [List.getD_eq_getElem _ _ hpd]
    exact List.getElem_mem hpd
  have hjl : j < (dW.getD p []).length := by
    rw [hrows _ hmem]; omega
  simpa using cumsum_getD (dW.getD p []) j hjl

/-- Witness for C1 at `T = 1`, `N_steps = 2`, `N_paths = 1`,
`dW = [[3, 5]]`, `p = 0`, `k = 2`. -/
theorem simulate_prefix_sum_columns_witness :
    (([[0, 3, 8]] : List (List ℚ)).getD 0 []).getD 2 0 =
      ((([[3, 5]] : List (List ℚ)).getD 0 []).take 2).sum := by
  exact simulate_prefix_sum_columns 1 2 1 [[3, 5]] [0, 1/2, 1] [[0, 3, 8]]
    (by norm_num) (by norm_num) (by norm_num) (by decide)
    (by intro row hrow; simp at hrow; simp [hrow]) simulate_eval_example
    0 2 (by decide) (by decide) (by decide)

/-! ### C2: the time grid -/

/-- C2.  For valid parameters, the returned time grid has length
`N_steps + 1`, first element `0`, last element `T`, and uniform spacing
`T / N_steps` between consecutive elements. -/
theorem simulate_time_grid (T : ℚ) (N_steps N_paths : ℕ)
    (dW : List (List ℚ)) (tg : List ℚ) (paths : List (List ℚ))
    (hT : 0 < T) (hN : 1 ≤ N_steps) (hP : 1 ≤ N_paths)
    (hsim : simulate_brownian_motion T N_steps N_paths dW = Except.ok (tg, paths))
    (i : ℕ) (hi : i < N_steps) :
    tg.length = N_steps + 1 ∧ tg.getD 0 0 = 0 ∧ tg.getD N_steps 0 = T ∧
      tg.getD (i + 1) 0 - tg.getD i 0 = T / N_steps := by
  rw [simulate_ok T N_steps N_paths dW hN] at hsim
  have htg : linspace T N_steps = tg := congrArg Prod.fst (Except.ok.inj hsim)
  subst htg
  have hNz : (N_steps : ℚ) ≠ 0 := by
    exact_mod_cast Nat.one_le_iff_ne_zero.mp hN
  refine ⟨linspace_length T N_steps, ?_, ?_, ?_⟩
  · rw [linspace_getD T N_steps 0 (by omega)]; simp
  · rw [linspace_getD T N_steps N_steps le_rfl]
    field_simp
  · rw [linspace_getD T N_steps (i + 1) (by omega), linspace_getD T N_steps i (by omega)]
    push_cast
    ring

/-- Witness for C2 at `T = 1`, `N_steps = 2`, `N_paths = 1`, `i = 1`. -/
theorem simulate_time_grid_witness :
    ([0, 1/2, 1] : List ℚ).length = 2 + 1 ∧
      ([0, 1/2, 1] : List ℚ).getD 0 0 = 0 ∧
      ([0, 1/2, 1] : List ℚ).getD 2 0 = 1 ∧
      ([0, 1/2, 1] : List ℚ).getD (1 + 1) 0 - ([0, 1/2, 1] : List ℚ).getD 1 0 = 1 / 2 := by
  have h := simulate_time_grid 1 2 1 [[3, 5]] [0, 1/2, 1] [[0, 3, 8]]
    (by norm_num) (by norm_num) (by norm_num) simulate_eval_example 1 (by decide)
  simpa using h

/-! ### C3: shape of the path ensemble and zero initial column -/

/-- C3.  For valid parameters and an increment batch of shape
`(N_paths, N_steps)`, the returned path ensemble has `N_paths` rows, each of
length `N_steps + 1`, and every row starts with `0`. -/
theorem simulate_ensemble_shape (T : ℚ) (N_steps N_paths : ℕ)
    (dW : List (List ℚ)) (tg : List ℚ) (paths : List (List ℚ))
    (hT : 0 < T) (hN : 1 ≤ N_steps) (hP : 1 ≤ N_paths)
    (hlen : dW.length = N_paths) (hrows : ∀ row ∈ dW, row.length = N_steps)
    (hsim : simulate_brownian_motion T N_steps N_paths dW = Except.ok (tg, paths))
    (p : ℕ) (hp : p < N_paths) :
    paths.length = N_paths ∧ (paths.getD p []).length = N_steps + 1 ∧
      (paths.getD p []).getD 0 0 = 0 := by
  rw [simulate_ok T N_steps N_paths dW hN] at hsim
  have hpaths : dW.map (fun row => 0 :: cumsum row) = paths :=
    congrArg Prod.snd (Except.ok.inj hsim)
  subst hpaths
  have hpd : p < dW.length := by omega
  have hmap : p < (dW.map (fun row => 0 :: cumsum row)).length := by simpa using hpd
  have hrow : ((dW.map (fun row => 0 :: cumsum row)).getD p []) =
      0 :: cumsum (dW.getD p []) := by
    rw [List.getD_eq_getElem _ _ hmap, List.getElem_map, List.getD_eq_getElem _ _ hpd]
  have hmem : dW.getD p [] ∈ dW := by
    rw [List.getD_eq_getElem _ _ hpd]
    exact List.getElem_mem hpd
  refine ⟨by simpa using hlen, ?_, by rw [hrow]; simp⟩
  rw [hrow, List.length_cons, cumsum_length, hrows _ hmem]

/-- Witness for C3 at `T = 1`, `N_steps = 2`, `N_paths = 1`, `p = 0`. -/
theorem simulate_ensemble_shape_witness :
    ([[0, 3, 8]] : List (List ℚ)).length = 1 ∧
      (([[0, 3, 8]] : List (List ℚ)).getD 0 []).length = 2 + 1 ∧
      (([[0, 3, 8]] : List (List ℚ)).getD 0 []).getD 0 0 = 0 := by
  exact simulate_ensemble_shape 1 2 1 [[3, 5]] [0, 1/2, 1] [[0, 3, 8]]
    (by norm_num) (by norm_num) (by norm_num) (by decide)
    (by intro row hrow; simp at hrow; simp [hrow]) simulate_eval_example 0 (by decide)

/-! ### Auxiliary lemmas for the transforms -/

theorem getD_map_rows {α β : Type} (f : List α → List β) (xs : List (List α))
    (p : ℕ) (hp : p < xs.length) : (xs.map f).getD p [] = f (xs.getD p []) := by
  rw [List.getD_eq_getElem _ _ (by simpa using hp), List.getElem_map,
    List.getD_eq_getElem _ _ hp]

theorem zipWith_getD {α : Type} (f : α → α → α) (as bs : List α) (d : α) (k : ℕ)
    (ha : k < as.length) (hb : k < bs.length) :
    (List.zipWith f as bs).getD k d = f (as.getD k d) (bs.getD k d) := by
  have hk : k < (List.zipWith f as bs).length := by
    rw [List.length_zipWith]; omega
  rw [List.getD_eq_getElem _ _ hk, List.getElem_zipWith,
    List.getD_eq_getElem _ _ ha, List.getD_eq_getElem _ _ hb]

theorem mem_zipWith_elim {α β γ : Type} {f : α → β → γ} {x : γ} :
    ∀ {as : List α} {bs : List β}, x ∈ List.zipWith f as bs → ∃ a b, x = f a b := by
  intro as
  induction as with
  | nil => intro bs h; simp at h
  | cons a as ih =>
    intro bs h
    cases bs with
    | nil => simp at h
    | cons b bs =>
      rw [List.zipWith_cons_cons] at h
      rcases List.mem_cons.mp h with h | h
      · exact ⟨a, b, h⟩
      · exact ih h

/-! ### C4: squared-minus-time transform, element-wise -/

/-- C4.  For a path ensemble and a time grid of matching width, the
squared-minus-time transform preserves the shape and satisfies
`output[p][k] = input[p][k]^2 - time_points[k]` at every valid index. -/
theorem squared_transform_elementwise {α : Type} [CommRing α]
    (Wt_paths : List (List α)) (time_points : List α) (p k : ℕ)
    (hp : p < Wt_paths.length)
    (hw : (Wt_paths.getD p []).length = time_points.length)
    (hk : k < time_points.length) :
    (generate_squared_brownian_motion_martingale Wt_paths time_points).length
        = Wt_paths.length ∧
      ((generate_squared_brownian_motion_martingale Wt_paths time_points).getD p []).length
        = (Wt_paths.getD p []).length ∧
      ((generate_squared_brownian_motion_martingale Wt_paths time_points).getD p []).getD k 0
        = ((Wt_paths.getD p []).getD k 0) ^ 2 - time_points.getD k 0 := by
  have hrow : (generate_squared_brownian_motion_martingale Wt_paths time_points).getD p []
      = List.zipWith (fun w t => w ^ 2 - t) (Wt_paths.getD p []) time_points :=
    getD_map_rows _ Wt_paths p hp
  refine ⟨by simp [generate_squared_brownian_motion_martingale], ?_, ?_⟩
  · rw [hrow, List.length_zipWith, hw, Nat.min_self]
  · rw [hrow, zipWith_getD _ _ _ _ _ (by omega) hk]

/-- Witness for C4 at `Wt_paths = [[2, 3]]`, `time_points = [0, 1]`,
`p = 0`, `k = 1`, over `ℚ`. -/
theorem squared_transform_elementwise_witness :
    (generate_squared_brownian_motion_martingale [[(2 : ℚ), 3]] [0, 1]).length = 1 ∧
      ((generate_squared_brownian_motion_martingale [[(2 : ℚ), 3]] [0, 1]).getD 0 []).length
        = (([[(2 : ℚ), 3]] : List (List ℚ)).getD 0 []).length ∧
      ((generate_squared_brownian_motion_martingale [[(2 : ℚ), 3]] [0, 1]).getD 0 []).getD 1 0
        = ((([[(2 : ℚ), 3]] : List (List ℚ)).getD 0 []).getD 1 0) ^ 2
            - ([0, 1] : List ℚ).getD 1 0 := by
  have h := squared_transform_elementwise [[(2 : ℚ), 3]] [0, 1] 0 1
    (by decide) (by decide) (by decide)
  simpa using h

/-! ### C5: exponential-martingale transform, element-wise -/

/-- C5.  For a path ensemble and a time grid of matching width and a real
`theta`, the exponential transform preserves the shape and satisfies
`output[p][k] = exp (theta * input[p][k] - 0.5 * theta^2 * time_points[k])`
at every valid index. -/
theorem exponential_transform_elementwise (Wt_paths : List (List ℝ))
    (time_points : List ℝ) (theta : ℝ) (p k : ℕ)
    (hp : p < Wt_paths.length)
    (hw : (Wt_paths.getD p []).length = time_points.length)
    (hk : k < time_points.length) :
    (generate_exponential_martingale Real.exp Wt_paths time_points theta).length
        = Wt_paths.length ∧
      ((generate_exponential_martingale Real.exp Wt_paths time_points theta).getD p []).length
        = (Wt_paths.getD p []).length ∧
      ((generate_exponential_martingale Real.exp Wt_paths time_points theta).getD p []).getD k 0
        = Real.exp (theta * ((Wt_paths.getD p []).getD k 0)
            - 0.5 * theta ^ 2 * time_points.getD k 0) := by
  have hrow : (generate_exponential_martingale Real.exp Wt_paths time_points theta).getD p []
      = List.zipWith (fun w t => Real.exp (theta * w - 1 / 2 * theta ^ 2 * t))
          (Wt_paths.getD p []) time_points :=
    getD_map_rows _ Wt_paths p hp
  refine ⟨by simp [generate_exponential_martingale], ?_, ?_⟩
  · rw [hrow, List.length_zipWith, hw, Nat.min_self]
  · rw [hrow, zipWith_getD _ _ _ _ _ (by omega) hk]
    norm_num

/-- Witness for C5 at `Wt_paths = [[2, 3]]`, `time_points = [0, 1]`,
`theta = 2`, `p = 0`, `k = 1`. -/
theorem exponential_transform_elementwise_witness :
    (generate_exponential_martingale Real.exp [[(2 : ℝ), 3]] [0, 1] 2).length = 1 ∧
      ((generate_exponential_martingale Real.exp [[(2 : ℝ), 3]] [0, 1] 2).getD 0 []).length
        = (([[(2 : ℝ), 3]] : List (List ℝ)).getD 0 []).length ∧
      ((generate_exponential_martingale Real.exp [[(2 : ℝ), 3]] [0, 1] 2).getD 0 []).getD 1 0
        = Real.exp (2 * ((([[(2 : ℝ), 3]] : List (List ℝ)).getD 0 []).getD 1 0)
            - 0.5 * 2 ^ 2 * ([0, 1] : List ℝ).getD 1 0) := by
  have h := exponential_transform_elementwise [[(2 : ℝ), 3]] [0, 1] 2 0 1
    (by simp) (by simp) (by simp)
  simpa using h

/-! ### C8: the exponential transform at `theta = 0` is constantly one -/

/-- C8.  For `theta = 0`, every entry of the output of the exponential
transform is `1`, whatever the input paths and time grid. -/
theorem exponential_theta_zero (Wt_paths : List (List ℝ)) (time_points : List ℝ)
    (row : List ℝ) (x : ℝ)
    (hrow : row ∈ generate_exponential_martingale Real.exp Wt_paths time_points 0)
    (hx : x ∈ row) : x = 1 := by
  obtain ⟨r, _, rfl⟩ := List.mem_map.mp hrow
  obtain ⟨w, t, rfl⟩ := mem_zipWith_elim hx
  simp

/-- Witness for C8 at `Wt_paths = [[2]]`, `time_points = [3]`. -/
theorem exponential_theta_zero_witness :
    Real.exp (0 * 2 - 1 / 2 * 0 ^ 2 * 3) = 1 := by
  refine exponential_theta_zero [[2]] [3]
    [Real.exp (0 * 2 - 1 / 2 * 0 ^ 2 * 3)] _ ?_ ?_
  · simp [generate_exponential_martingale]
  · simp

/-! ### C10: deterministic initial values of the derived processes -/

/-- C10.  If column 0 of the input ensemble is all zeros and the time grid
starts at 0, then column 0 of the squared-minus-time output is 0 and column
0 of the exponential-martingale output is 1, for every `theta`. -/
theorem derived_initial_values (Wt_paths : List (List ℝ)) (time_points : List ℝ)
    (theta : ℝ)
    (htg0 : time_points.getD 0 0 = 0)
    (hcol0 : ∀ row ∈ Wt_paths, row.getD 0 0 = 0)
    (p : ℕ) (hp : p < Wt_paths.length)
    (hrow : Wt_paths.getD p [] ≠ []) (htg : time_points ≠ []) :
    ((generate_squared_brownian_motion_martingale Wt_paths time_points).getD p []).getD 0 0
        = 0 ∧
      ((generate_exponential_martingale Real.exp Wt_paths time_points theta).getD p []).getD 0 0
        = 1 := by
  obtain ⟨w, ws, hws⟩ := List.exists_cons_of_ne_nil hrow
  obtain ⟨t, ts, hts⟩ := List.exists_cons_of_ne_nil htg
  have hmem : Wt_paths.getD p [] ∈ Wt_paths := by
    rw [List.getD_eq_getElem _ _ hp]
    exact List.getElem_mem hp
  have hw0 : w = 0 := by
    have := hcol0 _ hmem
    rw [hws] at this
    simpa using this
  have ht0 : t = 0 := by
    rw [hts] at htg0
    simpa using htg0
  constructor
  · unfold generate_squared_brownian_motion_martingale
    rw [getD_map_rows _ Wt_paths p hp, hws, hts, List.zipWith_cons_cons]
    simp [hw0, ht0]
  · unfold generate_exponential_martingale
    rw [getD_map_rows _ Wt_paths p hp, hws, hts, List.zipWith_cons_cons]
    simp [hw0, ht0]

/-- Witness for C10 at `Wt_paths = [[0, 5]]`, `time_points = [0, 1]`,
`theta = 2`, `p = 0`. -/
theorem derived_initial_values_witness :
    ((generate_squared_brownian_motion_martingale [[(0 : ℝ), 5]] [0, 1]).getD 0 []).getD 0 0
        = 0 ∧
      ((generate_exponential_martingale Real.exp [[(0 : ℝ), 5]] [0, 1] 2).getD 0 []).getD 0 0
        = 1 := by
  exact derived_initial_values [[0, 5]] [0, 1] 2 (by simp)
    (by intro row hrow; simp at hrow; simp [hrow]) 0 (by simp) (by simp) (by simp)

/-! ### C6: what the aggregator computes and what it returns -/

/-- C6 counterexample: at a concrete input the column-wise mean is defined
and nonempty, yet `verify_martingale_property` returns `none` (the Python
function has no `return` statement), so it does not return the Average Path
to its caller. -/
theorem verify_returns_none_cex :
    verify_martingale_property [0, 1] [[1, 2], [3, 5]] "W" ≠
      some (np_mean_axis0 [[1, 2], [3, 5]]) := by
  simp [verify_martingale_property]

/-- C6 amended: the aggregator computes the Average Path internally —
`np.mean(process_paths, axis=0)` has length `N + 1` and entry `k` equal to
the arithmetic mean of column `k` over all paths — but the function returns
`None`; the average is only plotted, never returned. -/
theorem verify_average_path (time_points : List ℚ) (process_paths : List (List ℚ))
    (process_name : String) (hP : 1 ≤ process_paths.length)
    (k : ℕ) (hk : k < (process_paths.headD []).length) :
    verify_martingale_property time_points process_paths process_name = none ∧
      (np_mean_axis0 process_paths).length = (process_paths.headD []).length ∧
      (np_mean_axis0 process_paths).getD k 0 =
        (process_paths.map (fun row => row.getD k 0)).sum / (process_paths.length : ℚ) := by
  refine ⟨rfl, ?_, ?_⟩
  · rw [np_mean_axis0, List.length_map, List.length_range]
  · have hk' : k < (np_mean_axis0 process_paths).length := by
      rw [np_mean_axis0, List.length_map, List.length_range]; omega
    rw [np_mean_axis0] at hk' ⊢
    rw [List.getD_eq_getElem _ _ hk', List.getElem_map, List.getElem_range]

/-- Witness for C6 at `time_points = [0, 1]`,
`process_paths = [[1, 2], [3, 5]]`, `k = 1`. -/
theorem verify_average_path_witness :
    verify_martingale_property [0, 1] [[1, 2], [3, 5]] "W" = none ∧
      (np_mean_axis0 [[(1 : ℚ), 2], [3, 5]]).length
        = (([[(1 : ℚ), 2], [3, 5]] : List (List ℚ)).headD []).length ∧
      (np_mean_axis0 [[(1 : ℚ), 2], [3, 5]]).getD 1 0 =
        (([[(1 : ℚ), 2], [3, 5]] : List (List ℚ)).map (fun row => row.getD 1 0)).sum /
          (([[(1 : ℚ), 2], [3, 5]] : List (List ℚ)).length : ℚ) := by
  exact verify_average_path [0, 1] [[1, 2], [3, 5]] "W" (by decide) 1 (by decide)

/-! ### C7: the simulator performs no parameter validation -/

/-- C7 counterexample: at `T = 1`, `N_steps = 1`, `N_paths = 0` the
simulator succeeds and silently returns an empty path ensemble instead of
rejecting `P = 0` as a precondition violation. -/
theorem no_validation_cex :
    simulate_brownian_motion 1 1 0 [] = Except.ok ([0, 1], []) := by
  rw [simulate_ok 1 1 0 [] (by norm_num)]
  norm_num [linspace, List.range_succ]

/-- C7 amended: the simulator performs no parameter validation.  For any
`T` (including `T ≤ 0`) and any `N_steps ≥ 1`, `N_paths = 0` silently
yields an empty path ensemble; the only failing case is `N_steps = 0`,
which raises the Python `ZeroDivisionError` from `dt = T / N_steps` rather
than a descriptive parameter error. -/
theorem no_validation_amended (T : ℚ) (N_steps : ℕ) (hN : 1 ≤ N_steps) :
    simulate_brownian_motion T N_steps 0 [] = Except.ok (linspace T N_steps, []) ∧
      simulate_brownian_motion T 0 1 [] =
        Except.error "ZeroDivisionError: division by zero" :=
  ⟨by rw [simulate_ok T N_steps 0 [] hN]; rfl, rfl⟩

/-- Witness for C7 at `T = -1` (a non-positive horizon, also accepted),
`N_steps = 2`. -/
theorem no_validation_amended_witness :
    simulate_brownian_motion (-1) 2 0 [] = Except.ok (linspace (-1) 2, []) ∧
      simulate_brownian_motion (-1) 0 1 [] =
        Except.error "ZeroDivisionError: division by zero" :=
  no_validation_amended (-1) 2 (by norm_num)

/-! ### C9: no operation mutates its argument arrays

The numpy expressions in the three operations — `Wt_paths**2 - time_points`
(line 91), `np.exp(theta * Wt_paths - 0.5 * theta**2 * time_points)`
(line 111) and `np.mean(process_paths, axis=0)` (line 67) — all allocate
fresh result arrays; none of the function bodies contains an in-place
assignment to an argument.  This is modelled by a heap of allocated arrays:
each call reads its arguments from the heap and appends one fresh array,
and every previously allocated cell is unchanged. -/

/-- A numpy array value held in the heap: one- or two-dimensional. -/
inductive NpVal where
  | arr1 : List ℚ → NpVal
  | arr2 : List (List ℚ) → NpVal
deriving DecidableEq

/-- The arrays allocated so far, addressed by allocation index. -/
abbrev Heap := List NpVal

/-- Read a one-dimensional array out of the heap. -/
def readArr1 (h : Heap) (r : ℕ) : List ℚ :=
  match h.getD r (NpVal.arr1 []) with
  | NpVal.arr1 v => v
  | NpVal.arr2 _ => []

/-- Read a two-dimensional array out of the heap. -/
def readArr2 (h : Heap) (r : ℕ) : List (List ℚ) :=
  match h.getD r (NpVal.arr1 []) with
  | NpVal.arr1 _ => []
  | NpVal.arr2 v => v

/-- A call of `generate_squared_brownian_motion_martingale` on heap-held
arrays: the result of `Wt_paths**2 - time_points` is a fresh allocation. -/
def squared_call (h : Heap) (pathsRef tgRef : ℕ) : Heap × ℕ :=
  (h ++ [NpVal.arr2 (generate_squared_brownian_motion_martingale
    (readArr2 h pathsRef) (readArr1 h tgRef))], h.length)

/-- A call of `generate_exponential_martingale` on heap-held arrays: the
result of `np.exp(...)` is a fresh allocation. -/
def exponential_call (expF : ℚ → ℚ) (h : Heap) (pathsRef tgRef : ℕ) (theta : ℚ) :
    Heap × ℕ :=
  (h ++ [NpVal.arr2 (generate_exponential_martingale expF
    (readArr2 h pathsRef) (readArr1 h tgRef) theta)], h.length)

/-- The aggregation step of `verify_martingale_property` on a heap-held
ensemble: `np.mean(process_paths, axis=0)` is a fresh allocation. -/
def mean_call (h : Heap) (pathsRef : ℕ) : Heap × ℕ :=
  (h ++ [NpVal.arr1 (np_mean_axis0 (readArr2 h pathsRef))], h.length)

/-- C9.  Each of the three operations leaves every previously allocated
array unchanged: the input arrays are not mutated in place. -/
theorem transforms_no_mutation (expF : ℚ → ℚ) (h : Heap)
    (pathsRef tgRef meanRef : ℕ) (theta : ℚ) (i : ℕ) (hi : i < h.length) :
    (squared_call h pathsRef tgRef).1.getD i (NpVal.arr1 []) =
        h.getD i (NpVal.arr1 []) ∧
      (exponential_call expF h pathsRef tgRef theta).1.getD i (NpVal.arr1 []) =
        h.getD i (NpVal.arr1 []) ∧
      (mean_call h meanRef).1.getD i (NpVal.arr1 []) =
        h.getD i (NpVal.arr1 []) :=
  ⟨List.getD_append _ _ _ _ hi, List.getD_append _ _ _ _ hi,
    List.getD_append _ _ _ _ hi⟩

/-- Witness for C9 on a heap holding one ensemble `[[1]]` and one grid
`[0]`, inspected at cell 0 after each call. -/
theorem transforms_no_mutation_witness :
    (squared_call [NpVal.arr2 [[1]], NpVal.arr1 [0]] 0 1).1.getD 0 (NpVal.arr1 []) =
        NpVal.arr2 [[1]] ∧
      (exponential_call (fun x => x) [NpVal.arr2 [[1]], NpVal.arr1 [0]] 0 1 2).1.getD 0
          (NpVal.arr1 []) = NpVal.arr2 [[1]] ∧
      (mean_call [NpVal.arr2 [[1]], NpVal.arr1 [0]] 0).1.getD 0 (NpVal.arr1 []) =
        NpVal.arr2 [[1]] := by
  have h := transforms_no_mutation (fun x => x) [NpVal.arr2 [[1]], NpVal.arr1 [0]]
    0 1 0 2 0 (by simp)
  simpa using h

end BrownianDemo
